import Mathlib

/-!
Shallow embedding of the Alluxio python client's routing and data-plane core
(`alluxio/worker_ring.py` and `alluxio/alluxio_file_system.py`):
the MurmurHash3-based consistent-hash ring, worker selection, the page-read
generators, the load-job polling loop, and the ring refresh diff rule.
Byte strings are modelled as `List Nat` (each element a byte value),
machine integers as `Nat`/`Int` with explicit reduction modulo `2 ^ 32`.
-/

namespace AlluxioPy

/-! ### MurmurHash3 x86 32-bit (the `mmh3.mmh3_32` hasher, seed 0) -/

/-- Left-rotation of a 32-bit value. -/
def rotl32 (x r : Nat) : Nat :=
  ((x % 2 ^ 32) * 2 ^ r) % 2 ^ 32 + (x % 2 ^ 32) / 2 ^ (32 - r)

/-- The per-block mixing of a 32-bit block `k` in MurmurHash3. -/
def mixK (k : Nat) : Nat :=
  (rotl32 ((k * 0xcc9e2d51) % 2 ^ 32) 15 * 0x1b873593) % 2 ^ 32

/-- Accumulation of a mixed block into the running state `h`. -/
def mixH (h k : Nat) : Nat :=
  (rotl32 (h ^^^ mixK k) 13 * 5 + 0xe6546b64) % 2 ^ 32

/-- Processes the full 4-byte little-endian blocks of the input, returning the
running state and the remaining tail of fewer than 4 bytes. -/
def murmurBody (h : Nat) : List Nat → Nat × List Nat
  | b0 :: b1 :: b2 :: b3 :: rest =>
      murmurBody (mixH h (b0 + b1 * 256 + b2 * 65536 + b3 * 16777216)) rest
  | rest => (h, rest)

/-- The tail bytes assembled into a little-endian partial block. -/
def tailBlock : List Nat → Nat
  | [t0] => t0
  | [t0, t1] => t0 + t1 * 256
  | [t0, t1, t2] => t0 + t1 * 256 + t2 * 65536
  | _ => 0

/-- MurmurHash3 finalization mix. -/
def fmix32 (h : Nat) : Nat :=
  let h1 := h ^^^ (h / 2 ^ 16)
  let h2 := (h1 * 0x85ebca6b) % 2 ^ 32
  let h3 := h2 ^^^ (h2 / 2 ^ 13)
  let h4 := (h3 * 0xc2b2ae35) % 2 ^ 32
  h4 ^^^ (h4 / 2 ^ 16)

/-- MurmurHash3 x86 32-bit of a byte sequence. -/
def murmur3_32 (data : List Nat) (seed : Nat) : Nat :=
  let bt := murmurBody seed data
  let h1 := if bt.2 = [] then bt.1 else bt.1 ^^^ mixK (tailBlock bt.2)
  fmix32 (h1 ^^^ (data.length % 2 ^ 32))

/-- Two's-complement signed reading of a 32-bit value (`sintdigest`). -/
def toSigned32 (h : Nat) : Int :=
  if h < 2 ^ 31 then (h : Int) else (h : Int) - 2 ^ 32

/-- The incremental `mmh3.mmh3_32` hasher, modelled by the bytes accumulated
so far: each `update` appends, and the digest hashes the whole buffer. -/
structure MMHasher where
  buf : List Nat

def MMHasher.init : MMHasher := ⟨[]⟩

def MMHasher.update (hs : MMHasher) (data : List Nat) : MMHasher :=
  ⟨hs.buf ++ data⟩

def MMHasher.sintdigest (hs : MMHasher) : Int :=
  toSigned32 (murmur3_32 hs.buf 0)

/-- `int.to_bytes(4, "little")` for values below `2 ^ 32`. -/
def u32le (v : Nat) : List Nat :=
  [v % 256, v / 256 % 256, v / 65536 % 256, v / 16777216 % 256]

/-! ### Worker data model (`worker_ring.py`) -/

/-- `WorkerIdentity`: version plus opaque identifier bytes. -/
structure WorkerIdentity where
  version : Nat
  identifier : List Nat
deriving DecidableEq

/-- `WorkerNetAddress`: the full address record carried through unchanged. -/
structure WorkerNetAddress where
  host : String
  containerHost : String
  rpcPort : Nat
  dataPort : Nat
  secureRpcPort : Nat
  nettyDataPort : Nat
  webPort : Nat
  domainSocketPath : String
  httpServerPort : Nat
deriving DecidableEq

/-- `WorkerEntity`: identity paired with address. -/
structure WorkerEntity where
  workerIdentity : WorkerIdentity
  workerNetAddress : WorkerNetAddress
deriving DecidableEq

/-- `_hash_worker_identity(worker, node_index)`: the incremental hasher is
updated with the identifier, the 4-byte little-endian version, and the
4-byte little-endian node index; the signed digest is the ring key. -/
def hashWorkerIdentity (w : WorkerIdentity) (nodeIndex : Nat) : Int :=
  (((MMHasher.init.update w.identifier).update (u32le w.version)).update
    (u32le nodeIndex)).sintdigest

/-- `_hash(key, index)`: hashes the UTF-8 key bytes followed by the 4-byte
little-endian attempt index. -/
def lookupHash (key : List Nat) (index : Nat) : Int :=
  ((MMHasher.init.update key).update (u32le index)).sintdigest

/-! ### Hash ring (`SortedDict` keyed by signed 32-bit hash) -/

/-- The ring: association list sorted by key ascending, keys unique. -/
abbrev HashRing := List (Int × WorkerIdentity)

/-- `SortedDict.__setitem__`: insert keeping sort order, replacing an equal
key's value. -/
def ringInsert : HashRing → Int → WorkerIdentity → HashRing
  | [], k, v => [(k, v)]
  | (k0, v0) :: rest, k, v =>
    if k < k0 then (k, v) :: (k0, v0) :: rest
    else if k = k0 then (k, v) :: rest
    else (k0, v0) :: ringInsert rest k v

/-- The sequence of `hash_ring[hash_key] = worker_identity` insertions made by
`_update_hash_ring`: for each worker, one entry per virtual node index
`i < hash_node_per_worker`. -/
def ringInsertions (hashNodePerWorker : Nat) (workers : List WorkerIdentity) :
    List (Int × WorkerIdentity) :=
  workers.flatMap fun w =>
    (List.range hashNodePerWorker).map fun i => (hashWorkerIdentity w i, w)

/-- `_update_hash_ring`: the ring that results from performing all
insertions on an empty `SortedDict`. -/
def updateHashRing (hashNodePerWorker : Nat) (workers : List WorkerIdentity) :
    HashRing :=
  (ringInsertions hashNodePerWorker workers).foldl
    (fun r p => ringInsert r p.1 p.2) []

/-- `_get_ceiling_value(hash_key)`: `bisect_right` finds the first ring key
strictly greater than the probe; if none exists the first (smallest-key)
entry's value is returned.  `none` only on an empty ring, where the python
code would raise. -/
def getCeilingValue (ring : HashRing) (hashKey : Int) : Option WorkerIdentity :=
  match ring.find? (fun p => decide (hashKey < p.1)) with
  | some p => some p.2
  | none => ring.head?.map (fun p => p.2)

/-! ### Worker selection (`get_multiple_workers`) -/

/-- Python `dict.get` over the identity-to-address association list. -/
def lookupAddr : List (WorkerIdentity × WorkerNetAddress) → WorkerIdentity →
    Option WorkerNetAddress
  | [], _ => none
  | (k, v) :: rest, w => if k = w then some v else lookupAddr rest w

/-- The probe loop of `_get_multiple_worker_identities`: while fewer than
`target` distinct identities were found and attempts remain, hash the key
with the 1-based attempt number, take the ring ceiling, and append the
identity if it is new.  `fuel` is the number of remaining attempts. -/
def selectLoop (ring : HashRing) (key : List Nat) (target : Nat) :
    Nat → Nat → List WorkerIdentity → List WorkerIdentity
  | 0, _, acc => acc
  | fuel + 1, attempt, acc =>
    if target ≤ acc.length then acc
    else
      let acc2 :=
        match getCeilingValue ring (lookupHash key (attempt + 1)) with
        | some w => if w ∈ acc then acc else acc ++ [w]
        | none => acc
      selectLoop ring key target fuel (attempt + 1) acc2

/-- `_get_multiple_worker_identities(key, count)`: the requested count is
clamped to the number of known workers, then the probe loop runs with at
most `maxAttempts` attempts (the constructor default is 100). -/
def getMultipleWorkerIdentities (ring : HashRing)
    (workerInfoMap : List (WorkerIdentity × WorkerNetAddress))
    (key : List Nat) (count maxAttempts : Nat) : List WorkerIdentity :=
  let target := if workerInfoMap.length ≤ count then workerInfoMap.length
                else count
  selectLoop ring key target maxAttempts 0 []

/-- `get_multiple_workers(key, count)`: translate the selected identities to
addresses, silently skipping identities absent from the map. -/
def getMultipleWorkers (ring : HashRing)
    (workerInfoMap : List (WorkerIdentity × WorkerNetAddress))
    (key : List Nat) (count maxAttempts : Nat) : List WorkerNetAddress :=
  (getMultipleWorkerIdentities ring workerInfoMap key count maxAttempts).filterMap
    (lookupAddr workerInfoMap)

/-! ### Ring refresh diff rule (`_fetch_workers_and_update_ring`) -/

/-- The identity-to-address map built from the fetched entities. -/
def buildWorkerInfoMap (entities : List WorkerEntity) :
    List (WorkerIdentity × WorkerNetAddress) :=
  entities.map fun e => (e.workerIdentity, e.workerNetAddress)

/-- `diff_in_worker_info_detected`: true when a fetched identity is missing
from the current map or carries a different address, or the sizes differ. -/
def diffInWorkerInfoDetected
    (oldMap : List (WorkerIdentity × WorkerNetAddress))
    (entities : List WorkerEntity) : Bool :=
  (entities.any fun e =>
    match lookupAddr oldMap e.workerIdentity with
    | none => true
    | some addr => decide (addr ≠ e.workerNetAddress))
  || decide ((buildWorkerInfoMap entities).length ≠ oldMap.length)

/-- The ring-replacement decision of `_fetch_workers_and_update_ring` after a
successful fetch: `none` means the current ring and map are kept (no call to
`_update_hash_ring`); `some` carries the freshly built ring and map that are
swapped in. -/
def fetchWorkersAndUpdateRing (hashNodePerWorker : Nat)
    (oldMap : List (WorkerIdentity × WorkerNetAddress))
    (entities : List WorkerEntity) :
    Option (HashRing × List (WorkerIdentity × WorkerNetAddress)) :=
  let newMap := buildWorkerInfoMap entities
  if diffInWorkerInfoDetected oldMap entities then
    some (updateHashRing hashNodePerWorker (newMap.map fun p => p.1), newMap)
  else
    none

/-! ### Load-job state and progress (`alluxio_file_system.py`) -/

/-- The `LoadState` enumeration. -/
inductive LoadState where
  | RUNNING
  | VERIFYING
  | STOPPED
  | SUCCEEDED
  | FAILED
deriving DecidableEq

/-- Python `LoadState(value)`: `none` models the `ValueError` raised when the
string matches no member. -/
def LoadState.fromString (s : String) : Option LoadState :=
  if s = "RUNNING" then some .RUNNING
  else if s = "VERIFYING" then some .VERIFYING
  else if s = "STOPPED" then some .STOPPED
  else if s = "SUCCEEDED" then some .SUCCEEDED
  else if s = "FAILED" then some .FAILED
  else none

/-- Whether `pat` occurs at the start of `l`. -/
def listStartsWith : List Char → List Char → Bool
  | [], _ => true
  | _ :: _, [] => false
  | p :: ps, c :: cs => (p == c) && listStartsWith ps cs

/-- Whether `pat` occurs contiguously anywhere in `l` (python `in` on str). -/
def listHasSub (pat : List Char) : List Char → Bool
  | [] => listStartsWith pat []
  | c :: cs => listStartsWith pat (c :: cs) || listHasSub pat cs

/-- Python `sub in s` for strings. -/
def strContains (sub s : String) : Bool :=
  listHasSub sub.toList s.toList

/-- The `jobState`-string handling of the synchronous
`AlluxioFileSystem._load_progress_internal`: a state containing `FAILED`
is normalized to `FAILED`, otherwise the string must name an enum member
(`none` = the wrapped exception path). -/
def loadProgressStateSync (jobState : String) : Option LoadState :=
  if strContains "FAILED" jobState then some .FAILED
  else LoadState.fromString jobState

/-- The `jobState`-string handling of the asynchronous
`AlluxioAsyncFileSystem._load_progress_internal`: the raw string is passed
straight to the enum constructor. -/
def loadProgressStateAsync (jobState : String) : Option LoadState :=
  LoadState.fromString jobState

/-! ### The load polling loop (`_load_file`)

Each poll of the progress endpoint either raises (`Except.error`) or yields a
`LoadState`; `progress i` is the outcome of the `i`-th poll.  Time advances
only through the 10-second sleeps (`now` starts at 0, so `stop_time`, set to
`time.time() + timeout`, is the timeout itself).  `fuel` bounds the number of
loop iterations; `none` means the loop was still running after `fuel` polls. -/

/-- The `while True` polling loop body of `_load_file`. -/
def loadPoll (progress : Nat → Except Unit LoadState) (stopTime : Option Int) :
    Nat → Int → Nat → Option (Except Unit Bool)
  | 0, _, _ => none
  | fuel + 1, now, pollIdx =>
    match progress pollIdx with
    | .error e => some (.error e)
    | .ok .SUCCEEDED => some (.ok true)
    | .ok .FAILED => some (.ok false)
    | .ok .STOPPED => some (.ok false)
    | .ok _ =>
      match stopTime with
      | none => loadPoll progress stopTime fuel (now + 10) (pollIdx + 1)
      | some st =>
        if 10 ≤ st - now then
          loadPoll progress stopTime fuel (now + 10) (pollIdx + 1)
        else
          some (.ok false)

/-- The body of `_load_file` before its enclosing `try`/`except`: submit, and
on a successful submission enter the polling loop. -/
def loadFileBody (submit : Except Unit Bool)
    (progress : Nat → Except Unit LoadState) (timeout : Option Int)
    (fuel : Nat) : Option (Except Unit Bool) :=
  match submit with
  | .error e => some (.error e)
  | .ok false => some (.ok false)
  | .ok true => loadPoll progress timeout fuel 0 0

/-- `_load_file` as observed by `load`: the enclosing `except Exception`
turns every raised error into a `False` return. -/
def loadFile (submit : Except Unit Bool)
    (progress : Nat → Except Unit LoadState) (timeout : Option Int)
    (fuel : Nat) : Option Bool :=
  (loadFileBody submit progress timeout fuel).map fun r =>
    match r with
    | .error _ => false
    | .ok b => b

/-! ### Page read generators -/

/-- Outcome of one `_read_page` HTTP call: a raised exception or a body. -/
inductive PageResp where
  | err
  | ok (body : List Nat)
deriving DecidableEq

/-- `_all_page_generator`: pages are requested sequentially; an exception on
page 0 is re-raised, later exceptions end the stream; an empty body ends the
stream without a yield; a short body is yielded and ends the stream.  The
result collects the yielded bodies; `fuel` bounds the iterations (returning
`.ok []` once exhausted, which no theorem relies on). -/
def allPageGen (pageSize : Nat) (resp : Nat → PageResp) :
    Nat → Nat → Except Unit (List (List Nat))
  | 0, _ => .ok []
  | fuel + 1, pageIndex =>
    match resp pageIndex with
    | .err => if pageIndex = 0 then .error () else .ok []
    | .ok body =>
      if body = [] then .ok []
      else if body.length < pageSize then .ok [body]
      else
        match allPageGen pageSize resp fuel (pageIndex + 1) with
        | .error e => .error e
        | .ok rest => .ok (body :: rest)

/-- A full-file read starts the generator at page index 0. -/
def allPageRead (pageSize : Nat) (resp : Nat → PageResp) (fuel : Nat) :
    Except Unit (List (List Nat)) :=
  allPageGen pageSize resp fuel 0

/-- The `(read_offset, read_length)` computed by `_range_page_generator` for
page `i` of a range read of `[offset, offset + length)`. -/
def readRequest (pageSize offset length i : Nat) : Nat × Nat :=
  let startPageIndex := offset / pageSize
  let startPageOffset := offset % pageSize
  let endPageIndex := (offset + length - 1) / pageSize
  let endPageReadTo := (offset + length - 1) % pageSize + 1
  if i = startPageIndex then
    if startPageIndex = endPageIndex then
      (startPageOffset, endPageReadTo - startPageOffset)
    else
      (startPageOffset, pageSize - startPageOffset)
  else if i = endPageIndex then
    (0, endPageReadTo)
  else
    (0, pageSize)

/-- `_range_page_generator`: starting at the start page, each page is
requested with `readRequest`; an exception on the start page is re-raised,
later exceptions end the stream; each body is yielded, and the stream ends
after the end page or after a body shorter than its requested length. -/
def rangePageGen (pageSize offset length : Nat) (resp : Nat → PageResp) :
    Nat → Nat → Except Unit (List (List Nat))
  | 0, _ => .ok []
  | fuel + 1, pageIndex =>
    match resp pageIndex with
    | .err =>
      if pageIndex = offset / pageSize then .error () else .ok []
    | .ok body =>
      if pageIndex = (offset + length - 1) / pageSize then .ok [body]
      else if body.length < (readRequest pageSize offset length pageIndex).2 then
        .ok [body]
      else
        match rangePageGen pageSize offset length resp fuel (pageIndex + 1) with
        | .error e => .error e
        | .ok rest => .ok (body :: rest)

/-- A range read starts the generator at the start page index. -/
def rangePageRead (pageSize offset length : Nat) (resp : Nat → PageResp)
    (fuel : Nat) : Except Unit (List (List Nat)) :=
  rangePageGen pageSize offset length resp fuel (offset / pageSize)

/-! ### Concrete instances used by the counterexamples -/

def c1WorkerA : WorkerIdentity := ⟨1, [1]⟩

def c1WorkerB : WorkerIdentity := ⟨1, [2]⟩

/-- A two-entry ring with keys 5 and 10. -/
def c1Ring : HashRing := [(5, c1WorkerA), (10, c1WorkerB)]

/-- Two worker identities whose single virtual-node hash keys collide:
both hash to -306307508 under `hashWorkerIdentity _ 0`. -/
def c6WorkerA : WorkerIdentity :=
  ⟨1, [112, 106, 171, 85, 75, 18, 209, 204, 49, 242, 156, 6, 202, 32, 79, 175]⟩

def c6WorkerB : WorkerIdentity :=
  ⟨1, [242, 224, 65, 165, 174, 142, 149, 229, 209, 37, 70, 230, 111, 38, 99, 255]⟩

def c6AddrA : WorkerNetAddress :=
  ⟨"worker-a", "", 29999, 29997, 0, 29997, 30000, "", 28080⟩

def c6AddrB : WorkerNetAddress :=
  ⟨"worker-b", "", 29999, 29997, 0, 29997, 30000, "", 28080⟩

def c6Map : List (WorkerIdentity × WorkerNetAddress) :=
  [(c6WorkerA, c6AddrA), (c6WorkerB, c6AddrB)]

/-- The ring built with `hash_node_per_worker = 1` from the two workers. -/
def c6Ring : HashRing := updateHashRing 1 [c6WorkerA, c6WorkerB]

/-- UTF-8 bytes of the path key `"x"`. -/
def c6Key : List Nat := [120]

end AlluxioPy

namespace AlluxioPy

/-! ## Claims -/

/-- C1, counterexample: in the ring `[(5, A), (10, B)]` probed at key 5, the
least ring key that is `≥ 5` is 5 itself, which stores worker A, yet
`_get_ceiling_value` returns worker B: `bisect_right` skips a key equal to
the probe. -/
theorem c1_counterexample :
    (5, c1WorkerA) ∈ c1Ring ∧ (∀ q ∈ c1Ring, (5 : Int) ≤ q.1) ∧
    getCeilingValue c1Ring 5 = some c1WorkerB ∧ c1WorkerB ≠ c1WorkerA := by
  decide

/-- C1, amended: on a non-empty ring sorted by strictly increasing key,
`_get_ceiling_value` returns the identity stored at the least ring key
STRICTLY GREATER than the probe, and the identity stored at the smallest
ring key when no ring key exceeds the probe. -/
theorem c1_ceiling_lookup (ring : HashRing) (k : Int)
    (hsorted : ring.Pairwise fun p q => p.1 < q.1) (hne : ring ≠ []) :
    ∃ p ∈ ring, getCeilingValue ring k = some p.2 ∧
      ((k < p.1 ∧ ∀ q ∈ ring, k < q.1 → p.1 ≤ q.1) ∨
       ((∀ q ∈ ring, q.1 ≤ k) ∧ ∀ q ∈ ring, p.1 ≤ q.1)) := by
  induction ring with
  | nil => exact absurd rfl hne
  | cons r rest ih =>
    by_cases hk : k < r.1
    · refine ⟨r, List.mem_cons_self _ _, ?_, ?_⟩
      · have hfind : (r :: rest).find? (fun x => decide (k < x.1)) = some r :=
          List.find?_cons_of_pos _ (by simpa using hk)
        simp [getCeilingValue, hfind]
      · left
        refine ⟨hk, ?_⟩
        intro q hq _
        rcases List.mem_cons.mp hq with h | h
        · exact le_of_eq (h ▸ rfl)
        · exact le_of_lt (List.rel_of_pairwise_cons hsorted h)
    · have hskip : (r :: rest).find? (fun x => decide (k < x.1)) =
          rest.find? (fun x => decide (k < x.1)) :=
        List.find?_cons_of_neg _ (by simpa using hk)
      rcases eq_or_ne rest [] with hrest | hrne
      · subst hrest
        refine ⟨r, List.mem_cons_self _ _, ?_, ?_⟩
        · simp [getCeilingValue, hskip, hk]
        · right
          constructor
          · intro q hq
            rcases List.mem_cons.mp hq with h | h
            · exact h ▸ le_of_not_lt hk
            · simp at h
          · intro q hq
            rcases List.mem_cons.mp hq with h | h
            · exact le_of_eq (h ▸ rfl)
            · simp at h
      · obtain ⟨p, hp, hceil, hcases⟩ := ih (List.Pairwise.of_cons hsorted) hrne
        rcases hcases with ⟨hkp, hmin⟩ | ⟨hall, hmin⟩
        · refine ⟨p, List.mem_cons_of_mem _ hp, ?_, ?_⟩
          · rcases hq : rest.find? (fun x => decide (k < x.1)) with _ | q
            · exact absurd (by simpa [hkp] using List.find?_eq_none.mp hq p hp)
                not_false
            · have hrq : getCeilingValue rest k = some q.2 := by
                simp [getCeilingValue, hq]
              have hqp : q.2 = p.2 := Option.some.inj (hrq ▸ hceil)
              simp [getCeilingValue, hskip, hq, hqp]
          · left
            refine ⟨hkp, ?_⟩
            intro q hq hkq
            rcases List.mem_cons.mp hq with h | h
            · exact absurd (h ▸ hkq) hk
            · exact hmin q h hkq
        · refine ⟨r, List.mem_cons_self _ _, ?_, ?_⟩
          · have hnone : rest.find? (fun x => decide (k < x.1)) = none :=
              List.find?_eq_none.mpr fun x hx => by
                simp [not_lt.mpr (hall x hx)]
            simp [getCeilingValue, hskip, hnone, List.head?]
          · right
            constructor
            · intro q hq
              rcases List.mem_cons.mp hq with h | h
              · exact h ▸ le_of_not_lt hk
              · exact hall q h
            · intro q hq
              rcases List.mem_cons.mp hq with h | h
              · exact le_of_eq (h ▸ rfl)
              · exact le_of_lt (List.rel_of_pairwise_cons hsorted h)

/-- C1 witness: the amended lookup law evaluated on the concrete two-entry
ring at probe key 7. -/
theorem c1_ceiling_lookup_witness :
    ∃ p ∈ c1Ring, getCeilingValue c1Ring 7 = some p.2 ∧
      ((7 < p.1 ∧ ∀ q ∈ c1Ring, 7 < q.1 → p.1 ≤ q.1) ∨
       ((∀ q ∈ c1Ring, q.1 ≤ 7) ∧ ∀ q ∈ c1Ring, p.1 ≤ q.1)) :=
  c1_ceiling_lookup c1Ring 7 (by decide) (by decide)

/-- C2: for a range read of `[offset, offset + length)` with positive length
and page size `P`, with `s`, `off_s`, `e` and `end_read_to` as in the code,
the request issued for each page `i` between `s` and `e` is
`(off_s, end_read_to - off_s)` when `i = s = e`, `(off_s, P - off_s)` when
`i = s ≠ e`, `(0, end_read_to)` when `i = e ≠ s`, and the full page
otherwise. -/
theorem c2_range_request_cases (pageSize offset length i : Nat)
    (hP : 0 < pageSize) (hl : 0 < length)
    (hs : offset / pageSize ≤ i)
    (he : i ≤ (offset + length - 1) / pageSize) :
    readRequest pageSize offset length i =
      (if i = offset / pageSize then offset % pageSize else 0,
       if i = offset / pageSize ∧
          offset / pageSize = (offset + length - 1) / pageSize then
         (offset + length - 1) % pageSize + 1 - offset % pageSize
       else if i = offset / pageSize then pageSize - offset % pageSize
       else if i = (offset + length - 1) / pageSize then
         (offset + length - 1) % pageSize + 1
       else pageSize) := by
  by_cases h1 : i = offset / pageSize
  · by_cases h2 : offset / pageSize = (offset + length - 1) / pageSize
    · simp [readRequest, h1, h2]
    · simp [readRequest, h1, h2]
  · by_cases h3 : i = (offset + length - 1) / pageSize
    · have h4 : ¬((offset + length - 1) / pageSize = offset / pageSize) :=
        fun hh => h1 (h3.trans hh)
      have h5 : ¬(offset / pageSize = (offset + length - 1) / pageSize) :=
        fun hh => h4 hh.symm
      simp [readRequest, h1, h3, h4, h5]
    · simp [readRequest, h1, h3]

/-- C2 witness: page size 10, range `[7, 25)`, evaluated at each of the
pages 0, 1 and 2. -/
theorem c2_range_request_cases_witness :
    readRequest 10 7 18 0 =
      (if 0 = 7 / 10 then 7 % 10 else 0,
       if 0 = 7 / 10 ∧ 7 / 10 = (7 + 18 - 1) / 10 then
         (7 + 18 - 1) % 10 + 1 - 7 % 10
       else if 0 = 7 / 10 then 10 - 7 % 10
       else if 0 = (7 + 18 - 1) / 10 then (7 + 18 - 1) % 10 + 1
       else 10) ∧
    readRequest 10 7 18 1 =
      (if 1 = 7 / 10 then 7 % 10 else 0,
       if 1 = 7 / 10 ∧ 7 / 10 = (7 + 18 - 1) / 10 then
         (7 + 18 - 1) % 10 + 1 - 7 % 10
       else if 1 = 7 / 10 then 10 - 7 % 10
       else if 1 = (7 + 18 - 1) / 10 then (7 + 18 - 1) % 10 + 1
       else 10) ∧
    readRequest 10 7 18 2 =
      (if 2 = 7 / 10 then 7 % 10 else 0,
       if 2 = 7 / 10 ∧ 7 / 10 = (7 + 18 - 1) / 10 then
         (7 + 18 - 1) % 10 + 1 - 7 % 10
       else if 2 = 7 / 10 then 10 - 7 % 10
       else if 2 = (7 + 18 - 1) / 10 then (7 + 18 - 1) % 10 + 1
       else 10) :=
  ⟨c2_range_request_cases 10 7 18 0 (by decide) (by decide) (by decide)
      (by decide),
   c2_range_request_cases 10 7 18 1 (by decide) (by decide) (by decide)
      (by decide),
   c2_range_request_cases 10 7 18 2 (by decide) (by decide) (by decide)
      (by decide)⟩

/-- C3: a full-file read starts at page index 0 and, after each page
response, stops without yielding on an empty body, yields and stops on a
body shorter than the page size, and otherwise yields the body and advances
to the next page index. -/
theorem c3_full_read_steps (pageSize : Nat) (resp : Nat → PageResp)
    (fuel i : Nat) (body : List Nat) (hP : 0 < pageSize) :
    (allPageRead pageSize resp (fuel + 1) =
      allPageGen pageSize resp (fuel + 1) 0) ∧
    (resp i = .ok [] → allPageGen pageSize resp (fuel + 1) i = .ok []) ∧
    (resp i = .ok body → body ≠ [] → body.length < pageSize →
      allPageGen pageSize resp (fuel + 1) i = .ok [body]) ∧
    (resp i = .ok body → pageSize ≤ body.length →
      allPageGen pageSize resp (fuel + 1) i =
        (allPageGen pageSize resp fuel (i + 1)).map fun rest => body :: rest) := by
  refine ⟨rfl, ?_, ?_, ?_⟩
  · intro h
    simp [allPageGen, h]
  · intro h hne hlt
    simp [allPageGen, h, hne, hlt]
  · intro h hge
    have hne : body ≠ [] := by
      intro hnil
      rw [hnil] at hge
      simp at hge
      omega
    have hnlt : ¬ body.length < pageSize := not_lt.mpr hge
    simp only [allPageGen, h, if_neg hne, if_neg hnlt]
    cases allPageGen pageSize resp fuel (i + 1) with
    | error e => rfl
    | ok rest => rfl

/-- C3 witness: page size 2 and a three-page file `[7, 7], [8, 8], [9]`:
the generator yields all three bodies, the response at page 3 being empty. -/
theorem c3_full_read_steps_witness :
    (allPageRead 2
        (fun j => if j = 0 then .ok [7, 7] else if j = 1 then .ok [8, 8]
                  else if j = 2 then .ok [9] else .ok []) 4 =
      allPageGen 2
        (fun j => if j = 0 then .ok [7, 7] else if j = 1 then .ok [8, 8]
                  else if j = 2 then .ok [9] else .ok []) 4 0) ∧
    (allPageGen 2
        (fun j => if j = 0 then .ok [7, 7] else if j = 1 then .ok [8, 8]
                  else if j = 2 then .ok [9] else .ok []) 4 3 = .ok []) ∧
    (allPageGen 2
        (fun j => if j = 0 then .ok [7, 7] else if j = 1 then .ok [8, 8]
                  else if j = 2 then .ok [9] else .ok []) 4 2 = .ok [[9]]) ∧
    (allPageGen 2
        (fun j => if j = 0 then .ok [7, 7] else if j = 1 then .ok [8, 8]
                  else if j = 2 then .ok [9] else .ok []) 4 0 =
      (allPageGen 2
          (fun j => if j = 0 then .ok [7, 7] else if j = 1 then .ok [8, 8]
                    else if j = 2 then .ok [9] else .ok []) 3 1).map
        fun rest => [7, 7] :: rest) := by
  have h0 := c3_full_read_steps 2
    (fun j => if j = 0 then .ok [7, 7] else if j = 1 then .ok [8, 8]
              else if j = 2 then .ok [9] else .ok []) 3 0 [7, 7] (by decide)
  have h2 := c3_full_read_steps 2
    (fun j => if j = 0 then .ok [7, 7] else if j = 1 then .ok [8, 8]
              else if j = 2 then .ok [9] else .ok []) 3 2 [9] (by decide)
  have h3 := c3_full_read_steps 2
    (fun j => if j = 0 then .ok [7, 7] else if j = 1 then .ok [8, 8]
              else if j = 2 then .ok [9] else .ok []) 3 3 [9] (by decide)
  exact ⟨h0.1, h3.2.1 (by decide), h2.2.2.1 (by decide) (by decide) (by decide),
    h0.2.2.2 (by decide) (by decide)⟩

/-- When every page below `j` answers with a full page and the generator has
fuel to reach page `j`, a full-file read from page `i ≤ j` collects exactly
the bodies of pages `i, …, j - 1` once page `j` fails (for `0 < j`). -/
theorem allPageGen_ok_upto (pageSize : Nat) (resp : Nat → PageResp)
    (bodies : Nat → List Nat) (j : Nat) (hP : 0 < pageSize)
    (hbodies : ∀ k, k < j →
      resp k = .ok (bodies k) ∧ (bodies k).length = pageSize)
    (herr : resp j = .err) (hj : 0 < j) :
    ∀ fuel i, i ≤ j → j - i < fuel →
      allPageGen pageSize resp fuel i =
        .ok ((List.range' i (j - i)).map bodies) := by
  intro fuel
  induction fuel with
  | zero =>
    intro i hi hf
    omega
  | succ fuel ih =>
    intro i hi hf
    rcases eq_or_lt_of_le hi with heq | hlt
    · subst heq
      have hne : i ≠ 0 := Nat.pos_iff_ne_zero.mp hj
      simp [allPageGen, herr, hne]
    · have hb := hbodies i hlt
      have hne : bodies i ≠ [] := by
        intro h
        rw [h] at hb
        simp at hb
        omega
      have hnlt : ¬ (bodies i).length < pageSize := by
        rw [hb.2]
        exact lt_irrefl pageSize
      simp only [allPageGen, hb.1, if_neg hne, if_neg hnlt]
      rw [ih (i + 1) (by omega) (by omega)]
      have hsplit : j - i = (j - (i + 1)) + 1 := by omega
      rw [hsplit]
      rfl

/-- The range-read analogue: pages from the start page up to `j - 1` answer
with exactly the requested length, page `j` (still at most the end page)
fails, and the generator collects exactly the earlier bodies. -/
theorem rangePageGen_ok_upto (pageSize offset length : Nat)
    (resp : Nat → PageResp) (bodies : Nat → List Nat) (j : Nat)
    (hbodies : ∀ k, offset / pageSize ≤ k → k < j →
      resp k = .ok (bodies k) ∧
      (bodies k).length = (readRequest pageSize offset length k).2)
    (herr : resp j = .err) (hsj : offset / pageSize < j)
    (hje : j ≤ (offset + length - 1) / pageSize) :
    ∀ fuel i, offset / pageSize ≤ i → i ≤ j → j - i < fuel →
      rangePageGen pageSize offset length resp fuel i =
        .ok ((List.range' i (j - i)).map bodies) := by
  intro fuel
  induction fuel with
  | zero =>
    intro i hsi hi hf
    omega
  | succ fuel ih =>
    intro i hsi hi hf
    rcases eq_or_lt_of_le hi with heq | hlt
    · subst heq
      have hne : i ≠ offset / pageSize := Nat.ne_of_gt hsj
      simp [rangePageGen, herr, hne]
    · have hb := hbodies i hsi hlt
      have hnote : i ≠ (offset + length - 1) / pageSize := by omega
      have hnlt :
          ¬ (bodies i).length < (readRequest pageSize offset length i).2 := by
        rw [hb.2]
        exact lt_irrefl _
      simp only [rangePageGen, hb.1, if_neg hnote, if_neg hnlt]
      rw [ih (i + 1) (by omega) (by omega) (by omega)]
      have hsplit : j - i = (j - (i + 1)) + 1 := by omega
      rw [hsplit]
      rfl

/-- C4: for full-file and range reads alike, a failed request for the first
page (index 0, resp. the start page) raises the page-read error, while a
failed request for any later page raises nothing and the read returns
exactly the bodies already yielded. -/
theorem c4_page_failures (pageSize offset length fuel j : Nat)
    (resp : Nat → PageResp) (bodies : Nat → List Nat) (hP : 0 < pageSize) :
    (resp 0 = .err → allPageRead pageSize resp (fuel + 1) = .error ()) ∧
    ((∀ k, k < j →
        resp k = .ok (bodies k) ∧ (bodies k).length = pageSize) →
      resp j = .err → 0 < j → j < fuel →
      allPageRead pageSize resp fuel =
        .ok ((List.range' 0 j).map bodies)) ∧
    (resp (offset / pageSize) = .err →
      rangePageRead pageSize offset length resp (fuel + 1) = .error ()) ∧
    ((∀ k, offset / pageSize ≤ k → k < j →
        resp k = .ok (bodies k) ∧
        (bodies k).length = (readRequest pageSize offset length k).2) →
      resp j = .err → offset / pageSize < j →
      j ≤ (offset + length - 1) / pageSize →
      j - offset / pageSize < fuel →
      rangePageRead pageSize offset length resp fuel =
        .ok ((List.range' (offset / pageSize)
          (j - offset / pageSize)).map bodies)) := by
  refine ⟨?_, ?_, ?_, ?_⟩
  · intro herr
    simp [allPageRead, allPageGen, herr]
  · intro hbodies herr hj hfuel
    have := allPageGen_ok_upto pageSize resp bodies j hP hbodies herr hj
      fuel 0 (by omega) (by omega)
    simpa [allPageRead] using this
  · intro herr
    simp [rangePageRead, rangePageGen, herr]
  · intro hbodies herr hsj hje hfuel
    exact rangePageGen_ok_upto pageSize offset length resp bodies j
      hbodies herr hsj hje fuel (offset / pageSize) le_rfl (by omega) hfuel

/-- C4 witness: page size 2; an oracle that fails every page shows the
surfaced error on the first page, and an oracle whose page 1 fails after a
full page 0 shows the silent truncation, for both read styles (the range
read covering `[0, 4)`). -/
theorem c4_page_failures_witness :
    (allPageRead 2 (fun _ => .err) 2 = .error ()) ∧
    (allPageRead 2 (fun k => if k = 0 then .ok [1, 2] else .err) 2 =
      .ok [[1, 2]]) ∧
    (rangePageRead 2 0 4 (fun _ => .err) 2 = .error ()) ∧
    (rangePageRead 2 0 4 (fun k => if k = 0 then .ok [1, 2] else .err) 2 =
      .ok [[1, 2]]) := by
  have hall := c4_page_failures 2 0 4 2 1 (fun _ => .err)
    (fun _ => [1, 2]) (by decide)
  have hsome := c4_page_failures 2 0 4 2 1
    (fun k => if k = 0 then .ok [1, 2] else .err) (fun _ => [1, 2])
    (by decide)
  refine ⟨hall.1 rfl, ?_, hall.2.2.1 rfl, ?_⟩
  · have := hsome.2.1 (fun k hk => by
      have hk0 : k = 0 := by omega
      subst hk0
      exact ⟨rfl, rfl⟩) rfl (by decide) (by decide)
    simpa using this
  · have := hsome.2.2.2 (fun k hk0 hk1 => by
      have hk0 : k = 0 := by omega
      subst hk0
      exact ⟨rfl, rfl⟩) rfl (by decide) (by decide) (by decide)
    simpa using this

/-- C5: ring construction with `V ≥ 1` virtual nodes per worker performs
exactly `V · |W|` insertions; the insertion for worker `w` and node index
`i < V` is keyed by the signed MurmurHash3 of
`identifier ‖ version_le4 ‖ i_le4` and stores `w`'s identity, and every
insertion is of this form. -/
theorem c5_ring_population (V : Nat) (workers : List WorkerIdentity)
    (hV : 1 ≤ V) :
    (ringInsertions V workers).length = V * workers.length ∧
    (∀ w ∈ workers, ∀ i, i < V →
      (toSigned32
          (murmur3_32 (w.identifier ++ u32le w.version ++ u32le i) 0), w)
        ∈ ringInsertions V workers) ∧
    (∀ p ∈ ringInsertions V workers,
      ∃ w ∈ workers, ∃ i, i < V ∧ p = (hashWorkerIdentity w i, w)) := by
  refine ⟨?_, ?_, ?_⟩
  · induction workers with
    | nil => simp [ringInsertions]
    | cons w ws ih =>
      simp only [ringInsertions, List.flatMap_cons, List.length_append,
        List.length_map, List.length_range, List.length_cons] at *
      rw [ih]
      ring
  · intro w hw i hi
    have hkey : hashWorkerIdentity w i =
        toSigned32
          (murmur3_32 (w.identifier ++ u32le w.version ++ u32le i) 0) := by
      simp [hashWorkerIdentity, MMHasher.init, MMHasher.update,
        MMHasher.sintdigest]
    rw [← hkey]
    simp only [ringInsertions, List.mem_flatMap, List.mem_map,
      List.mem_range]
    exact ⟨w, hw, i, hi, rfl⟩
  · intro p hp
    simp only [ringInsertions, List.mem_flatMap, List.mem_map,
      List.mem_range] at hp
    obtain ⟨w, hw, i, hi, hpi⟩ := hp
    exact ⟨w, hw, i, hi, hpi.symm⟩

/-- C5 witness: one worker with one virtual node. -/
theorem c5_ring_population_witness :
    (ringInsertions 1 [c1WorkerA]).length = 1 * [c1WorkerA].length ∧
    (∀ w ∈ [c1WorkerA], ∀ i, i < 1 →
      (toSigned32
          (murmur3_32 (w.identifier ++ u32le w.version ++ u32le i) 0), w)
        ∈ ringInsertions 1 [c1WorkerA]) ∧
    (∀ p ∈ ringInsertions 1 [c1WorkerA],
      ∃ w ∈ [c1WorkerA], ∃ i, i < 1 ∧ p = (hashWorkerIdentity w i, w)) :=
  c5_ring_population 1 [c1WorkerA] (by decide)

/-- C6, counterexample: the worker map pairing `c6WorkerA` and `c6WorkerB`
(whose single virtual-node keys collide) is non-empty with two workers, yet
with the default cap of 100 attempts `get_multiple_workers` for key `"x"`
and count 2 returns a single address, not `min(2, |W|) = 2`, and worker A's
address is never returned although `2 ≥ |W|`. -/
theorem c6_counterexample :
    c6Map ≠ [] ∧ c6Map.length = 2 ∧
    (getMultipleWorkers c6Ring c6Map c6Key 2 100).length ≠
      min 2 c6Map.length ∧
    c6AddrA ∉ getMultipleWorkers c6Ring c6Map c6Key 2 100 := by
  decide

/-- C6, amended: the selection returns pairwise-distinct worker identities
and at most `min(count, |W|)` addresses; equality with `min(count, |W|)`
holds only when the 100-attempt probe cap suffices, and can fail under
virtual-node hash collisions (see the counterexample). -/
theorem c6_selection_bounds (ring : HashRing)
    (wmap : List (WorkerIdentity × WorkerNetAddress)) (key : List Nat)
    (count maxAttempts : Nat) :
    (getMultipleWorkerIdentities ring wmap key count maxAttempts).Nodup ∧
    (getMultipleWorkers ring wmap key count maxAttempts).length ≤
      min count wmap.length := by
  have hloop :
      ∀ fuel attempt (acc : List WorkerIdentity) (target : Nat),
        acc.Nodup → acc.length ≤ target →
        (selectLoop ring key target fuel attempt acc).Nodup ∧
        (selectLoop ring key target fuel attempt acc).length ≤ target := by
    intro fuel
    induction fuel with
    | zero =>
      intro attempt acc target h1 h2
      exact ⟨h1, h2⟩
    | succ fuel ih =>
      intro attempt acc target h1 h2
      by_cases ht : target ≤ acc.length
      · simp only [selectLoop, if_pos ht]
        exact ⟨h1, h2⟩
      · simp only [selectLoop, if_neg ht]
        cases hcv : getCeilingValue ring (lookupHash key (attempt + 1)) with
        | none => exact ih (attempt + 1) acc target h1 h2
        | some w =>
          by_cases hw : w ∈ acc
          · simp only [if_pos hw]
            exact ih (attempt + 1) acc target h1 h2
          · simp only [if_neg hw]
            refine ih (attempt + 1) (acc ++ [w]) target ?_ ?_
            · simp [List.nodup_append, h1, hw]
            · simp only [List.length_append, List.length_cons,
                List.length_nil]
              omega
  have htarget :
      (if wmap.length ≤ count then wmap.length else count) =
        min count wmap.length := by
    by_cases h : wmap.length ≤ count
    · simp [h, Nat.min_eq_right h]
    · simp [h, Nat.min_eq_left (Nat.le_of_not_le h)]
  have h := hloop maxAttempts 0 []
    (if wmap.length ≤ count then wmap.length else count) List.nodup_nil
    (by simp)
  refine ⟨h.1, ?_⟩
  calc (getMultipleWorkers ring wmap key count maxAttempts).length
      ≤ (getMultipleWorkerIdentities ring wmap key count maxAttempts).length :=
        List.length_filterMap_le _ _
    _ ≤ min count wmap.length := htarget ▸ h.2

/-- C7: on the load-progress response `jobState = "JOB_FAILED"` (a string
containing `FAILED`), the synchronous client normalizes to the `FAILED`
state, but the asynchronous client passes the raw string to the `LoadState`
constructor and raises instead of returning `FAILED`: the async
implementation lacks the substring normalization its sync sibling has. -/
theorem c7_failed_normalization :
    loadProgressStateSync "JOB_FAILED" = some LoadState.FAILED ∧
    strContains "FAILED" "JOB_FAILED" = true ∧
    loadProgressStateAsync "JOB_FAILED" = none ∧
    loadProgressStateAsync "JOB_FAILED" ≠ some LoadState.FAILED := by
  refine ⟨?_, ?_, ?_, ?_⟩ <;> decide

/-- C8: the load operation returns false on an unsuccessful submission;
otherwise it enters the polling loop started at time 0 with the deadline
`timeout`, where each poll returns true on `SUCCEEDED`, false on `FAILED`
or `STOPPED`, and on a non-terminal state either sleeps 10 seconds and
repeats (no deadline, or at least 10 seconds remain) or returns false when
less than 10 seconds remain before the deadline. -/
theorem c8_load_polling (submit : Except Unit Bool)
    (progress : Nat → Except Unit LoadState) (timeout : Option Int)
    (stopTime : Option Int) (st now : Int) (fuel pollIdx : Nat)
    (s : LoadState) :
    (submit = .ok false → loadFile submit progress timeout fuel = some false) ∧
    (submit = .ok true →
      loadFileBody submit progress timeout fuel =
        loadPoll progress timeout fuel 0 0) ∧
    (progress pollIdx = .ok .SUCCEEDED →
      loadPoll progress stopTime (fuel + 1) now pollIdx = some (.ok true)) ∧
    (progress pollIdx = .ok .FAILED →
      loadPoll progress stopTime (fuel + 1) now pollIdx = some (.ok false)) ∧
    (progress pollIdx = .ok .STOPPED →
      loadPoll progress stopTime (fuel + 1) now pollIdx = some (.ok false)) ∧
    (progress pollIdx = .ok s → (s = .RUNNING ∨ s = .VERIFYING) →
      (loadPoll progress none (fuel + 1) now pollIdx =
        loadPoll progress none fuel (now + 10) (pollIdx + 1)) ∧
      (10 ≤ st - now →
        loadPoll progress (some st) (fuel + 1) now pollIdx =
          loadPoll progress (some st) fuel (now + 10) (pollIdx + 1)) ∧
      (st - now < 10 →
        loadPoll progress (some st) (fuel + 1) now pollIdx =
          some (.ok false))) := by
  refine ⟨?_, ?_, ?_, ?_, ?_, ?_⟩
  · intro h
    simp [loadFile, loadFileBody, h]
  · intro h
    simp [loadFileBody, h]
  · intro h
    simp [loadPoll, h]
  · intro h
    simp [loadPoll, h]
  · intro h
    simp [loadPoll, h]
  · intro h hs
    rcases hs with hs | hs <;> subst hs <;>
      exact ⟨by simp [loadPoll, h],
        fun hge => by simp [loadPoll, h, if_pos hge],
        fun hlt => by simp [loadPoll, h, if_neg (not_le.mpr hlt)]⟩

/-- C8 witness: a job that runs once and then succeeds, polled with a
deadline of 25 seconds starting at time 0. -/
theorem c8_load_polling_witness :
    (loadFile (.ok false)
        (fun i => if i = 0 then .ok .RUNNING else .ok .SUCCEEDED)
        (some 25) 3 = some false) ∧
    (loadFileBody (.ok true)
        (fun i => if i = 0 then .ok .RUNNING else .ok .SUCCEEDED)
        (some 25) 3 =
      loadPoll (fun i => if i = 0 then .ok .RUNNING else .ok .SUCCEEDED)
        (some 25) 3 0 0) ∧
    (loadPoll (fun i => if i = 0 then .ok .RUNNING else .ok .SUCCEEDED)
        (some 25) 2 10 1 = some (.ok true)) ∧
    (loadPoll (fun i => if i = 0 then .ok .RUNNING else .ok .FAILED)
        (some 25) 2 10 1 = some (.ok false)) ∧
    (loadPoll (fun i => if i = 0 then .ok .RUNNING else .ok .STOPPED)
        (some 25) 2 10 1 = some (.ok false)) ∧
    (loadPoll (fun i => if i = 0 then .ok .RUNNING else .ok .SUCCEEDED)
        none 3 0 0 =
      loadPoll (fun i => if i = 0 then .ok .RUNNING else .ok .SUCCEEDED)
        none 2 10 1) ∧
    (loadPoll (fun i => if i = 0 then .ok .RUNNING else .ok .SUCCEEDED)
        (some 25) 3 0 0 =
      loadPoll (fun i => if i = 0 then .ok .RUNNING else .ok .SUCCEEDED)
        (some 25) 2 10 1) ∧
    (loadPoll (fun i => .ok .RUNNING) (some 5) 3 0 0 = some (.ok false)) := by
  have hsub := c8_load_polling (.ok false)
    (fun i => if i = 0 then .ok .RUNNING else .ok .SUCCEEDED)
    (some 25) (some 25) 25 0 2 0 .RUNNING
  have hok := c8_load_polling (.ok true)
    (fun i => if i = 0 then .ok .RUNNING else .ok .SUCCEEDED)
    (some 25) (some 25) 25 10 2 1 .SUCCEEDED
  have hfail := c8_load_polling (.ok true)
    (fun i => if i = 0 then .ok .RUNNING else .ok .FAILED)
    (some 25) (some 25) 25 10 1 1 .RUNNING
  have hstop := c8_load_polling (.ok true)
    (fun i => if i = 0 then .ok .RUNNING else .ok .STOPPED)
    (some 25) (some 25) 25 10 1 1 .RUNNING
  have hrun := c8_load_polling (.ok true)
    (fun i => if i = 0 then .ok .RUNNING else .ok .SUCCEEDED)
    (some 25) none 25 0 2 0 .RUNNING
  have hrun2 := c8_load_polling (.ok true)
    (fun i => if i = 0 then .ok .RUNNING else .ok .SUCCEEDED)
    (some 25) (some 25) 25 0 2 0 .RUNNING
  have htimeout := c8_load_polling (.ok true)
    (fun _ => .ok .RUNNING) (some 5) (some 5) 5 0 2 0 .RUNNING
  refine ⟨hsub.1 rfl, hok.2.1 rfl, hok.2.2.1 rfl, hfail.2.2.2.1 rfl,
    hstop.2.2.2.2.1 rfl,
    (hrun.2.2.2.2.2 rfl (Or.inl rfl)).1,
    (hrun2.2.2.2.2.2 rfl (Or.inl rfl)).2.1 (by decide),
    (htimeout.2.2.2.2.2 rfl (Or.inl rfl)).2.2 (by decide)⟩

/-- C10: `load` never propagates errors raised during the submit request or
the progress polling: a raised submit error yields a false return, a raised
poll error aborts the loop carrying the error, and every erroring run of
the body is caught by `_load_file`'s handler and returns false. -/
theorem c10_load_error_swallowing (submit : Except Unit Bool)
    (progress : Nat → Except Unit LoadState) (timeout : Option Int)
    (stopTime : Option Int) (now : Int) (fuel pollIdx : Nat) (e : Unit) :
    (submit = .error e → loadFile submit progress timeout fuel = some false) ∧
    (progress pollIdx = .error e →
      loadPoll progress stopTime (fuel + 1) now pollIdx =
        some (.error e)) ∧
    (submit = .ok true →
      loadFileBody submit progress timeout fuel =
        loadPoll progress timeout fuel 0 0) ∧
    (loadFileBody submit progress timeout fuel = some (.error e) →
      loadFile submit progress timeout fuel = some false) := by
  refine ⟨?_, ?_, ?_, ?_⟩
  · intro h
    simp [loadFile, loadFileBody, h]
  · intro h
    simp [loadPoll, h]
  · intro h
    simp [loadFileBody, h]
  · intro h
    simp [loadFile, h]

/-- C10 witness: a submission that raises, and a poll that raises after one
running poll, both produce a false return through the handler. -/
theorem c10_load_error_swallowing_witness :
    (loadFile (.error ())
        (fun i => if i = 0 then .ok .RUNNING else .error ()) none 3 =
      some false) ∧
    (loadPoll (fun i => if i = 0 then .ok .RUNNING else .error ()) none
        2 10 1 = some (.error ())) ∧
    (loadFileBody (.ok true)
        (fun i => if i = 0 then .ok .RUNNING else .error ()) none 3 =
      loadPoll (fun i => if i = 0 then .ok .RUNNING else .error ())
        none 3 0 0) ∧
    (loadFileBody (.ok true)
        (fun i => if i = 0 then .ok .RUNNING else .error ()) none 3 =
        some (.error ()) →
      loadFile (.ok true)
        (fun i => if i = 0 then .ok .RUNNING else .error ()) none 3 =
      some false) := by
  have herr0 := c10_load_error_swallowing (.error ())
    (fun i => if i = 0 then .ok .RUNNING else .error ()) none none 10 1 1 ()
  have hok := c10_load_error_swallowing (.ok true)
    (fun i => if i = 0 then .ok .RUNNING else .error ()) none none 10 3 1 ()
  exact ⟨herr0.1 rfl, herr0.2.1 rfl, hok.2.2.1 rfl, hok.2.2.2⟩

/-- A lookup misses exactly when the identity is not among the map's keys. -/
theorem lookupAddr_eq_none_iff (m : List (WorkerIdentity × WorkerNetAddress))
    (w : WorkerIdentity) :
    lookupAddr m w = none ↔ w ∉ m.map (fun p => p.1) := by
  induction m with
  | nil => simp [lookupAddr]
  | cons p rest ih =>
    obtain ⟨k, v⟩ := p
    by_cases h : k = w
    · simp [lookupAddr, h]
    · have hstep : lookupAddr ((k, v) :: rest) w = lookupAddr rest w := by
        simp [lookupAddr, h]
      rw [hstep, ih, List.map_cons]
      constructor
      · intro hn hmem
        rcases List.mem_cons.mp hmem with he | hm
        · exact h he.symm
        · exact hn hm
      · intro hn hm
        exact hn (List.mem_cons_of_mem _ hm)

/-- A successful lookup exhibits a pair of the map. -/
theorem lookupAddr_mem (m : List (WorkerIdentity × WorkerNetAddress))
    (w : WorkerIdentity) (a : WorkerNetAddress)
    (h : lookupAddr m w = some a) : (w, a) ∈ m := by
  induction m with
  | nil => simp [lookupAddr] at h
  | cons p rest ih =>
    obtain ⟨k, v⟩ := p
    by_cases hk : k = w
    · subst hk
      simp [lookupAddr] at h
      simp [h]
    · simp only [lookupAddr, if_neg hk] at h
      exact List.mem_cons_of_mem _ (ih h)

/-- On a map with pairwise-distinct keys, membership determines the
lookup result. -/
theorem mem_lookupAddr (m : List (WorkerIdentity × WorkerNetAddress))
    (w : WorkerIdentity) (a : WorkerNetAddress)
    (hnd : (m.map fun p => p.1).Nodup) (h : (w, a) ∈ m) :
    lookupAddr m w = some a := by
  induction m with
  | nil => simp at h
  | cons p rest ih =>
    obtain ⟨k, v⟩ := p
    rw [List.map_cons, List.nodup_cons] at hnd
    rcases List.mem_cons.mp h with heq | hrest
    · have h1 : w = k := congrArg Prod.fst heq
      have h2 : a = v := congrArg Prod.snd heq
      subst h1
      subst h2
      simp [lookupAddr]
    · have hk : k ≠ w := by
        intro hkw
        subst hkw
        exact hnd.1 (List.mem_map.mpr ⟨(k, a), hrest, rfl⟩)
      simp only [lookupAddr, if_neg hk]
      exact ih hnd.2 hrest

/-- The per-entity diff test is false exactly when the current map already
holds the entity's identity with the same address. -/
theorem diff_entry_false_iff
    (oldMap : List (WorkerIdentity × WorkerNetAddress)) (e : WorkerEntity) :
    (match lookupAddr oldMap e.workerIdentity with
      | none => true
      | some addr => decide (addr ≠ e.workerNetAddress)) = false ↔
    lookupAddr oldMap e.workerIdentity = some e.workerNetAddress := by
  cases h : lookupAddr oldMap e.workerIdentity with
  | none => simp
  | some a => simp [h]

/-- `diff_in_worker_info_detected` is false exactly when every fetched
entity is already present with its address and the map sizes agree. -/
theorem diffDetected_false_iff
    (oldMap : List (WorkerIdentity × WorkerNetAddress))
    (entities : List WorkerEntity) :
    diffInWorkerInfoDetected oldMap entities = false ↔
      ((∀ e ∈ entities,
        lookupAddr oldMap e.workerIdentity = some e.workerNetAddress) ∧
       (buildWorkerInfoMap entities).length = oldMap.length) := by
  rw [diffInWorkerInfoDetected, Bool.or_eq_false_iff]
  constructor
  · intro ⟨h1, h2⟩
    constructor
    · intro e he
      exact (diff_entry_false_iff oldMap e).mp
        (Bool.eq_false_iff.mpr ((List.any_eq_false.mp h1) e he))
    · simpa using h2
  · intro ⟨h1, h2⟩
    constructor
    · exact List.any_eq_false.mpr fun e he =>
        Bool.eq_false_iff.mp ((diff_entry_false_iff oldMap e).mpr (h1 e he))
    · simpa using h2

/-- C9: with pairwise-distinct identities on both sides, a refresh fetch
leaves the ring and map untouched exactly when the fetched identity map is
pointwise equal to the current one, and otherwise swaps in the freshly
built ring and map. -/
theorem c9_refresh_diff_rule (V : Nat)
    (oldMap : List (WorkerIdentity × WorkerNetAddress))
    (entities : List WorkerEntity)
    (hold : (oldMap.map fun p => p.1).Nodup)
    (hnew : (entities.map fun e => e.workerIdentity).Nodup) :
    (fetchWorkersAndUpdateRing V oldMap entities = none ↔
      ∀ w, lookupAddr (buildWorkerInfoMap entities) w =
        lookupAddr oldMap w) ∧
    (fetchWorkersAndUpdateRing V oldMap entities = none ∨
      fetchWorkersAndUpdateRing V oldMap entities =
        some (updateHashRing V
            ((buildWorkerInfoMap entities).map fun p => p.1),
          buildWorkerInfoMap entities)) := by
  have hkeys : (buildWorkerInfoMap entities).map (fun p => p.1) =
      entities.map fun e => e.workerIdentity := by
    simp [buildWorkerInfoMap, List.map_map, Function.comp_def]
  have hnewnd : ((buildWorkerInfoMap entities).map fun p => p.1).Nodup :=
    hkeys ▸ hnew
  have hnone_iff : fetchWorkersAndUpdateRing V oldMap entities = none ↔
      diffInWorkerInfoDetected oldMap entities = false := by
    by_cases hd : diffInWorkerInfoDetected oldMap entities
    · simp [fetchWorkersAndUpdateRing, hd]
    · simp [fetchWorkersAndUpdateRing, hd]
  refine ⟨?_, ?_⟩
  · rw [hnone_iff, diffDetected_false_iff]
    constructor
    · intro ⟨h1, h2⟩ w
      cases hl : lookupAddr (buildWorkerInfoMap entities) w with
      | some a =>
        have hmem := lookupAddr_mem _ _ _ hl
        obtain ⟨e, he, hpe⟩ := List.mem_map.mp hmem
        have hw : e.workerIdentity = w := congrArg Prod.fst hpe
        have ha : e.workerNetAddress = a := congrArg Prod.snd hpe
        rw [← hw, ← ha]
        exact (h1 e he).symm
      | none =>
        have hsub : (buildWorkerInfoMap entities).map (fun p => p.1) ⊆
            oldMap.map fun p => p.1 := by
          intro x hx
          obtain ⟨p, hp, hpx⟩ := List.mem_map.mp hx
          obtain ⟨e, he, hpe⟩ := List.mem_map.mp hp
          have := h1 e he
          have hxmem := lookupAddr_mem _ _ _ this
          exact hpx ▸ hpe ▸ List.mem_map.mpr ⟨_, hxmem, rfl⟩
        have hperm := (List.subperm_of_subset hnewnd hsub).perm_of_length_le
          (by simp [List.length_map, h2])
        have hw1 := (lookupAddr_eq_none_iff _ w).mp hl
        have hw2 : w ∉ oldMap.map fun p => p.1 := fun hmem =>
          hw1 (hperm.symm.subset hmem)
        exact ((lookupAddr_eq_none_iff _ w).mpr hw2).symm
    · intro hp
      constructor
      · intro e he
        have hmem : (e.workerIdentity, e.workerNetAddress) ∈
            buildWorkerInfoMap entities :=
          List.mem_map.mpr ⟨e, he, rfl⟩
        rw [← hp e.workerIdentity]
        exact mem_lookupAddr _ _ _ hnewnd hmem
      · have hperm : List.Perm
            ((buildWorkerInfoMap entities).map fun p => p.1)
            (oldMap.map fun p => p.1) := by
          rw [List.perm_ext_iff_of_nodup hnewnd hold]
          intro w
          constructor
          · intro hmem
            by_contra hcon
            have := (lookupAddr_eq_none_iff oldMap w).mpr hcon
            rw [← hp w] at this
            exact (lookupAddr_eq_none_iff _ w).mp this hmem
          · intro hmem
            by_contra hcon
            have := (lookupAddr_eq_none_iff _ w).mpr hcon
            rw [hp w] at this
            exact (lookupAddr_eq_none_iff oldMap w).mp this hmem
        have := hperm.length_eq
        simpa [List.length_map] using this
  · by_cases hd : diffInWorkerInfoDetected oldMap entities
    · right
      simp [fetchWorkersAndUpdateRing, hd]
    · left
      simp [fetchWorkersAndUpdateRing, hd]

/-- C9 witness: a one-worker map refetched identically is kept in place. -/
theorem c9_refresh_diff_rule_witness :
    (fetchWorkersAndUpdateRing 5 [(c1WorkerA, c6AddrA)]
        [⟨c1WorkerA, c6AddrA⟩] = none ↔
      ∀ w, lookupAddr (buildWorkerInfoMap [⟨c1WorkerA, c6AddrA⟩]) w =
        lookupAddr [(c1WorkerA, c6AddrA)] w) ∧
    (fetchWorkersAndUpdateRing 5 [(c1WorkerA, c6AddrA)]
        [⟨c1WorkerA, c6AddrA⟩] = none ∨
      fetchWorkersAndUpdateRing 5 [(c1WorkerA, c6AddrA)]
          [⟨c1WorkerA, c6AddrA⟩] =
        some (updateHashRing 5
            ((buildWorkerInfoMap [⟨c1WorkerA, c6AddrA⟩]).map fun p => p.1),
          buildWorkerInfoMap [⟨c1WorkerA, c6AddrA⟩])) :=
  c9_refresh_diff_rule 5 [(c1WorkerA, c6AddrA)] [⟨c1WorkerA, c6AddrA⟩]
    (by simp) (by simp)

end AlluxioPy



